import Mathlib

/-
Verification of the signal reconstruction and alignment engine of
suunto_exercise_data.py (class exercise_data).

Timestamps are modelled as rational numbers of milliseconds since an
arbitrary epoch (pandas datetimes have nanosecond resolution, which embeds
exactly into the rationals).  Interbeat intervals are rationals in
milliseconds.  Missing values (numpy NaN) are modelled as Option.none.
-/

namespace Suunto

/-- Rounding of a millisecond timestamp to a one-second grid, as performed by
pandas round with one-second frequency: round to nearest, with ties going to
the even second. -/
def roundSec (t : ℚ) : ℤ :=
  let s : ℤ := ⌊t / 1000⌋
  let r : ℚ := t / 1000 - s
  if r < 1/2 then s
  else if r = 1/2 then (if Even s then s else s + 1)
  else s + 1

/-- Running cumulative sum starting from accumulator acc, as produced by
pandas cumsum on the stacked interval series (each output entry includes the
current element). -/
def cumsumFrom (acc : ℚ) : List ℚ → List ℚ
  | [] => []
  | x :: xs => (acc + x) :: cumsumFrom (acc + x) xs

/-- The stacked interval series: all bursts flattened in original order
(ibi.stack() in parse_json, which drops the NaN padding of ragged rows). -/
def stackedIbi (bursts : List (ℚ × List ℚ)) : List ℚ :=
  (bursts.map Prod.snd).flatten

/-- Absolute beat timestamps as computed in parse_json, lines 116-121:
the cumulative sum of ALL stacked intervals is added to the single anchor
ibi.index[0] - sum(ibi.iloc[0]), i.e. first burst timestamp minus the sum of
the first burst's intervals.  Later bursts' own timestamps are not used. -/
def beatTimes (bursts : List (ℚ × List ℚ)) : List ℚ :=
  let t0 : ℚ := (bursts.headD (0, [])).1
  let s0 : ℚ := ((bursts.headD (0, [])).2).sum
  cumsumFrom (t0 - s0) (stackedIbi bursts)

/-- Chained reconstruction, following the amended specification statement:
beats of each burst are laid out from a running base that starts at
(first burst timestamp - first burst total) and advances by each burst's
total; beat i of a burst sits at the burst's base plus the inclusive prefix
sum of the burst's intervals up to i.  The reported timestamps of bursts
after the first play no role. -/
def chainTimes (base : ℚ) : List (List ℚ) → List ℚ
  | [] => []
  | l :: rest => cumsumFrom base l ++ chainTimes (base + l.sum) rest

theorem cumsumFrom_append (a : ℚ) (l m : List ℚ) :
    cumsumFrom a (l ++ m) = cumsumFrom a l ++ cumsumFrom (a + l.sum) m := by
  induction l generalizing a with
  | nil => simp [cumsumFrom]
  | cons x xs ih =>
      simp only [List.cons_append, cumsumFrom, List.append_eq, List.sum_cons,
        ih, ← add_assoc]

theorem cumsumFrom_flatten (base : ℚ) (ls : List (List ℚ)) :
    cumsumFrom base ls.flatten = chainTimes base ls := by
  induction ls generalizing base with
  | nil => simp [chainTimes, cumsumFrom]
  | cons l rest ih =>
      rw [show (l :: rest).flatten = l ++ rest.flatten from rfl,
        cumsumFrom_append, chainTimes, ih]

theorem cumsumFrom_getD (a : ℚ) (l : List ℚ) (i : ℕ) (hi : i < l.length) :
    (cumsumFrom a l).getD i 0 = a + (l.take (i + 1)).sum := by
  induction l generalizing a i with
  | nil => simp at hi
  | cons x xs ih =>
      cases i with
      | zero => simp [cumsumFrom]
      | succ j =>
          simp only [cumsumFrom, List.getD_cons_succ, List.take_succ_cons,
            List.sum_cons]
          rw [ih (a + x) j (by simpa using hi)]
          ring

theorem cumsumFrom_length (a : ℚ) (l : List ℚ) :
    (cumsumFrom a l).length = l.length := by
  induction l generalizing a with
  | nil => rfl
  | cons x xs ih => simp [cumsumFrom, ih]

theorem cumsumFrom_getLast? (a : ℚ) (l : List ℚ) (h : l ≠ []) :
    (cumsumFrom a l).getLast? = some (a + l.sum) := by
  induction l generalizing a with
  | nil => exact absurd rfl h
  | cons x xs ih =>
      cases xs with
      | nil => simp [cumsumFrom]
      | cons y ys =>
          have hx := ih (a + x) (by simp)
          simp only [cumsumFrom] at hx ⊢
          rw [List.getLast?_cons_cons, hx]
          congr 1
          simp only [List.sum_cons]
          ring

/-- C2: the claim that beat i of EVERY burst is reconstructed at that burst's
own reported timestamp minus the intervals after i fails for recordings with
more than one burst (see the counterexample).  What the code actually does:
all stacked intervals are chained from the single anchor
(first burst timestamp - first burst total); within the FIRST burst the
per-burst formula does hold. -/
theorem C2_chained_reconstruction (bursts : List (ℚ × List ℚ)) :
    beatTimes bursts =
      chainTimes ((bursts.headD (0, [])).1 - ((bursts.headD (0, [])).2).sum)
        (bursts.map Prod.snd)
  ∧ (∀ t l rest, bursts = (t, l) :: rest → ∀ i, i < l.length →
      (beatTimes bursts).getD i 0 = t - ((l.drop (i + 1)).sum)) := by
  constructor
  · rw [beatTimes, stackedIbi, cumsumFrom_flatten]
  · rintro t l rest rfl i hi
    have hflat : stackedIbi ((t, l) :: rest) = l ++ (rest.map Prod.snd).flatten := rfl
    rw [beatTimes, hflat, cumsumFrom_append]
    have hlen : i < (cumsumFrom ((((t, l) :: rest).headD (0, [])).1 -
        ((((t, l) :: rest).headD (0, [])).2).sum) l).length := by
      rw [cumsumFrom_length]; exact hi
    rw [List.getD_append _ _ _ _ hlen]
    have hD := cumsumFrom_getD ((((t, l) :: rest).headD (0, [])).1 -
        ((((t, l) :: rest).headD (0, [])).2).sum) l i hi
    rw [hD]
    have hsum : (l.take (i + 1)).sum + (l.drop (i + 1)).sum = l.sum := by
      rw [← List.sum_append, List.take_append_drop]
    simp only [List.headD_cons]
    linarith

/-- C2 witness: a concrete two-burst recording instantiating the first-burst
per-beat formula of the amended claim. -/
theorem C2_witness :
    (beatTimes [((10000 : ℚ), [800, 820]), (12000, [500])]).getD 0 0 =
      10000 - (([(800 : ℚ), 820]).drop (0 + 1)).sum :=
  (C2_chained_reconstruction [((10000 : ℚ), [800, 820]), (12000, [500])]).2
    10000 [800, 820] [(12000, [500])] rfl 0 (by decide)

/-- C2 counterexample: with two bursts whose reported timestamps are NOT
consistent with the chained intervals, the last beat of the second burst is
reconstructed at 11000 ms, not at the second burst's reported timestamp
20000 ms.  The per-burst formula of the claim fails. -/
theorem C2_counterexample :
    (beatTimes [((10000 : ℚ), [1000]), (20000, [1000])]).getD 1 0 = 11000 ∧
    (beatTimes [((10000 : ℚ), [1000]), (20000, [1000])]).getD 1 0 ≠ 20000 := by
  have h : beatTimes [((10000 : ℚ), [1000]), (20000, [1000])] = [10000, 11000] := by
    norm_num [beatTimes, stackedIbi, cumsumFrom]
  refine ⟨by rw [h]; rfl, ?_⟩
  rw [h]
  show (11000 : ℚ) ≠ 20000
  norm_num

/-- C3: for a single burst (t, L) the code reconstructs the FIRST beat at
t - sum(L) + L[0] (the claimed t - sum(L) is the notional time of the beat
preceding the first recorded interval), and the last beat exactly at t. -/
theorem C3_single_burst (t : ℚ) (l : List ℚ) (h : l ≠ []) :
    (beatTimes [(t, l)]).getD 0 0 = t - l.sum + l.headD 0
  ∧ (beatTimes [(t, l)]).getLast? = some t := by
  have hflat : stackedIbi [(t, l)] = l := by
    simp [stackedIbi]
  constructor
  · rw [beatTimes, hflat]
    cases l with
    | nil => exact absurd rfl h
    | cons x xs => simp [cumsumFrom]
  · rw [beatTimes, hflat, cumsumFrom_getLast? _ _ h]
    simp only [List.headD_cons]
    congr 1
    ring

/-- C3 witness: concrete single burst with two intervals. -/
theorem C3_witness :
    (beatTimes [((10000 : ℚ), [800, 820])]).getD 0 0 =
      10000 - ([(800 : ℚ), 820]).sum + ([(800 : ℚ), 820]).headD 0
  ∧ (beatTimes [((10000 : ℚ), [800, 820])]).getLast? = some (10000 : ℚ) :=
  C3_single_burst 10000 [800, 820] (by decide)

/-- C3 counterexample: the claim as stated places the first beat at
t - sum(L) = 8380 ms, but the code reconstructs it at 9180 ms. -/
theorem C3_counterexample :
    (beatTimes [((10000 : ℚ), [800, 820])]).getD 0 0 ≠
      10000 - ([(800 : ℚ), 820]).sum := by
  have h : beatTimes [((10000 : ℚ), [800, 820])] = [9180, 10000] := by
    norm_num [beatTimes, stackedIbi, cumsumFrom]
  rw [h]
  show (9180 : ℚ) ≠ 10000 - ([(800 : ℚ), 820]).sum
  norm_num

/-- Duplicate mask entry of position i, as computed by pandas
MultiIndex.duplicated(keep='first') on the (rounded second, slot) pairs:
true iff some strictly earlier position carries the same pair. -/
def dupMark (ts : ℕ → ℤ) (s : ℕ → ℕ) (i : ℕ) : Bool :=
  (List.range i).any fun j => ts j == ts i && s j == s i

/-- One pass of the collision-resolution while-loop of parse_json
(index_array += duplicate_indices): every marked position's slot is
incremented by one. -/
def slotStep (ts : ℕ → ℤ) (s : ℕ → ℕ) : ℕ → ℕ :=
  fun i => s i + (if dupMark ts s i then 1 else 0)

/-- Slot array after k passes of the while-loop, starting from
np.ones_like(ibi_1d), i.e. every slot equal to 1. -/
def slotIter (ts : ℕ → ℤ) : ℕ → ℕ → ℕ
  | 0 => fun _ => 1
  | k + 1 => slotStep ts (slotIter ts k)

/-- Number of strictly earlier positions sharing position i's rounded
second; the loop drives slot i to 1 + rank i. -/
def rank (ts : ℕ → ℤ) (i : ℕ) : ℕ :=
  ((Finset.range i).filter fun j => ts j = ts i).card

/-- Occurrences of the rounded second t among the first m positions. -/
def cntTo (ts : ℕ → ℤ) (t : ℤ) (m : ℕ) : ℕ :=
  ((Finset.range m).filter fun j => ts j = t).card

theorem dupMark_eq_true_iff (ts : ℕ → ℤ) (s : ℕ → ℕ) (i : ℕ) :
    dupMark ts s i = true ↔ ∃ j, j < i ∧ (ts j = ts i ∧ s j = s i) := by
  simp [dupMark, List.any_eq_true, List.mem_range, Bool.and_eq_true, beq_iff_eq]

theorem cntTo_succ (ts : ℕ → ℤ) (t : ℤ) (m : ℕ) :
    cntTo ts t (m + 1) = cntTo ts t m + if ts m = t then 1 else 0 := by
  rw [cntTo, cntTo, Finset.range_succ, Finset.filter_insert]
  split
  · rw [Finset.card_insert_of_not_mem (by simp)]
  · simp

theorem cntTo_mono (ts : ℕ → ℤ) (t : ℤ) {a b : ℕ} (h : a ≤ b) :
    cntTo ts t a ≤ cntTo ts t b :=
  Finset.card_le_card (Finset.filter_subset_filter _ (Finset.range_subset.2 h))

theorem exists_cntTo_eq (ts : ℕ → ℤ) (t : ℤ) :
    ∀ m k, k < cntTo ts t m → ∃ j, j < m ∧ ts j = t ∧ cntTo ts t j = k := by
  intro m
  induction m with
  | zero => intro k hk; simp [cntTo] at hk
  | succ m ih =>
      intro k hk
      rw [cntTo_succ] at hk
      by_cases hkc : k < cntTo ts t m
      · obtain ⟨j, hj, hjt, hjc⟩ := ih k hkc
        exact ⟨j, Nat.lt_succ_of_lt hj, hjt, hjc⟩
      · have h1 : ts m = t := by
          by_contra hne
          simp only [hne, if_false] at hk
          omega
        have h2 : cntTo ts t m = k := by
          simp only [h1, if_true] at hk
          omega
        exact ⟨m, Nat.lt_succ_self m, h1, h2⟩

theorem rank_eq_cntTo (ts : ℕ → ℤ) (i : ℕ) : rank ts i = cntTo ts (ts i) i :=
  rfl

theorem rank_lt_of_lt (ts : ℕ → ℤ) {j i : ℕ} (hj : j < i) (he : ts j = ts i) :
    rank ts j < rank ts i := by
  have h1 : rank ts j = cntTo ts (ts i) j := by
    simp only [rank, cntTo, he]
  have h2 : cntTo ts (ts i) (j + 1) = cntTo ts (ts i) j + 1 := by
    rw [cntTo_succ, if_pos he]
  have h3 : cntTo ts (ts i) (j + 1) ≤ cntTo ts (ts i) i := cntTo_mono ts (ts i) hj
  rw [h1, rank_eq_cntTo]
  omega

theorem rank_le_self (ts : ℕ → ℤ) (i : ℕ) : rank ts i ≤ i := by
  calc ((Finset.range i).filter fun j => ts j = ts i).card
      ≤ (Finset.range i).card := Finset.card_filter_le _ _
    _ = i := Finset.card_range i

/-- Closed form of the while-loop state: after k passes, slot i equals
1 + min (rank i) k.  Each pass pushes one more member of every group of
same-second positions onto its final slot. -/
theorem slotIter_eq (ts : ℕ → ℤ) : ∀ k i, slotIter ts k i = 1 + min (rank ts i) k := by
  intro k
  induction k with
  | zero => intro i; simp [slotIter]
  | succ k ih =>
      intro i
      show slotStep ts (slotIter ts k) i = _
      rw [slotStep]
      by_cases h : rank ts i ≤ k
      · have hdup : dupMark ts (slotIter ts k) i = false := by
          rw [← Bool.not_eq_true, dupMark_eq_true_iff]
          rintro ⟨j, hj, hts, hs⟩
          rw [ih j, ih i] at hs
          have hrj : rank ts j < rank ts i := rank_lt_of_lt ts hj hts
          rw [min_eq_left (le_of_lt (lt_of_lt_of_le hrj h)), min_eq_left h] at hs
          omega
        rw [hdup, if_neg (by simp), ih i,
          min_eq_left h, min_eq_left (h.trans (Nat.le_succ k))]
        omega
      · push_neg at h
        obtain ⟨j, hj, hts, hcnt⟩ :=
          exists_cntTo_eq ts (ts i) i k (by rw [← rank_eq_cntTo]; exact h)
        have hrj : rank ts j = k := by
          have : rank ts j = cntTo ts (ts i) j := by
            simp only [rank, cntTo, hts]
          rw [this, hcnt]
        have hdup : dupMark ts (slotIter ts k) i = true :=
          (dupMark_eq_true_iff ts (slotIter ts k) i).2
            ⟨j, hj, hts, by rw [ih j, ih i, hrj, min_self, min_eq_right (le_of_lt h)]⟩
        rw [hdup, if_pos rfl, ih i, min_eq_right (le_of_lt h),
          min_eq_right (Nat.succ_le_of_lt h)]
        omega

/-- Rounded-second key of position i of the raw per-beat series
(self.ibi_1d.index before the slot level is added). -/
def tsOf (keys : List ℤ) : ℕ → ℤ := fun i => keys.getD i 0

/-- Final slot array: the while-loop state after length-many passes; the loop
has reached its fixpoint on all real positions by then. -/
def finalSlots (keys : List ℤ) : ℕ → ℕ := slotIter (tsOf keys) keys.length

/-- The multi-indexed raw IBI series built in parse_json, lines 126-137:
each beat carries its (rounded second, slot) key and its interval value. -/
def multiIndexed (keys : List ℤ) (vals : List ℚ) : List ((ℤ × ℕ) × ℚ) :=
  (List.range keys.length).map fun i => ((tsOf keys i, finalSlots keys i), vals.getD i 0)

/-- First-seen deduplication of a key list, mirroring the row index set kept
by pandas unstack and by duplicated(keep='first'). -/
def uniqueKeysAux (seen : List ℤ) : List ℤ → List ℤ
  | [] => []
  | k :: tl => if k ∈ seen then uniqueKeysAux seen tl else k :: uniqueKeysAux (k :: seen) tl

def uniqueKeys : List ℤ → List ℤ := uniqueKeysAux []

/-- Pivot of the multi-indexed series into the rectangular raw-IBI matrix
(ibi.unstack() in parse_json): one row per distinct rounded second, carrying
that second's (slot, value) cells. -/
def pivotIbi (l : List ((ℤ × ℕ) × ℚ)) : List (ℤ × List (ℕ × ℚ)) :=
  (uniqueKeys (l.map fun p => p.1.1)).map fun t =>
    (t, l.filterMap fun p => if p.1.1 = t then some (p.1.2, p.2) else none)

theorem mem_uniqueKeysAux (x : ℤ) : ∀ (l seen : List ℤ),
    x ∈ uniqueKeysAux seen l ↔ x ∈ l ∧ x ∉ seen := by
  intro l
  induction l with
  | nil => intro seen; simp [uniqueKeysAux]
  | cons k tl ih =>
      intro seen
      rw [uniqueKeysAux]
      by_cases hk : k ∈ seen
      · rw [if_pos hk, ih seen]
        by_cases hxk : x = k
        · subst hxk; simp [hk]
        · simp [hxk]
      · rw [if_neg hk]
        by_cases hxk : x = k
        · subst hxk; simp [hk]
        · simp only [List.mem_cons, hxk, false_or, ih (k :: seen)]

theorem nodup_uniqueKeysAux : ∀ (l seen : List ℤ), (uniqueKeysAux seen l).Nodup := by
  intro l
  induction l with
  | nil => intro seen; simp [uniqueKeysAux]
  | cons k tl ih =>
      intro seen
      rw [uniqueKeysAux]
      by_cases hk : k ∈ seen
      · rw [if_pos hk]; exact ih seen
      · rw [if_neg hk]
        refine List.nodup_cons.2 ⟨fun hmem => ?_, ih (k :: seen)⟩
        exact ((mem_uniqueKeysAux k tl (k :: seen)).1 hmem).2 (List.mem_cons_self k seen)

theorem range_map_getD (l : List ℤ) :
    (List.range l.length).map (fun i => l.getD i 0) = l := by
  induction l with
  | nil => rfl
  | cons x tl ih =>
      rw [List.length_cons, List.range_succ_eq_map, List.map_cons, List.map_map]
      rw [show ((fun i => (x :: tl).getD i 0) ∘ Nat.succ) = (fun i => tl.getD i 0) by
        funext i; rfl]
      rw [ih, List.getD_cons_zero]

/-- C5: for every rounded-second key sequence, the slot-assignment loop's mask
is all-false after length-many passes (so the while-loop terminates), that
state is a fixpoint of one further pass on every real position, the produced
(second, slot) keys are pairwise distinct, and the pivoted raw-IBI matrix has
exactly the distinct rounded seconds as its rows, without duplicates. -/
theorem C5_slot_uniqueness (keys : List ℤ) (vals : List ℚ) :
    (∀ i, i < keys.length → dupMark (tsOf keys) (finalSlots keys) i = false)
  ∧ (∀ i, i < keys.length → slotStep (tsOf keys) (finalSlots keys) i = finalSlots keys i)
  ∧ (∀ i j, i < keys.length → j < keys.length → i ≠ j →
      (tsOf keys i, finalSlots keys i) ≠ (tsOf keys j, finalSlots keys j))
  ∧ (pivotIbi (multiIndexed keys vals)).map Prod.fst = uniqueKeys keys
  ∧ (uniqueKeys keys).Nodup
  ∧ (∀ t, t ∈ uniqueKeys keys ↔ t ∈ keys) := by
  have hrank : ∀ i, i < keys.length → rank (tsOf keys) i < keys.length := by
    intro i hi
    exact lt_of_le_of_lt (rank_le_self (tsOf keys) i) hi
  have hfin : ∀ i, i < keys.length → finalSlots keys i = 1 + rank (tsOf keys) i := by
    intro i hi
    rw [finalSlots, slotIter_eq, min_eq_left (le_of_lt (hrank i hi))]
  have hmask : ∀ i, i < keys.length → dupMark (tsOf keys) (finalSlots keys) i = false := by
    intro i hi
    rw [← Bool.not_eq_true, dupMark_eq_true_iff]
    rintro ⟨j, hj, hts, hs⟩
    rw [hfin j (hj.trans hi), hfin i hi] at hs
    have := rank_lt_of_lt (tsOf keys) hj hts
    omega
  refine ⟨hmask, ?_, ?_, ?_, nodup_uniqueKeysAux keys [], ?_⟩
  · intro i hi
    rw [slotStep, hmask i hi, if_neg (by simp)]
    omega
  · intro i j hi hj hne hpair
    have hts : tsOf keys i = tsOf keys j := congrArg Prod.fst hpair
    have hs : finalSlots keys i = finalSlots keys j := congrArg Prod.snd hpair
    rw [hfin i hi, hfin j hj] at hs
    rcases hne.lt_or_lt with hlt | hlt
    · have := rank_lt_of_lt (tsOf keys) hlt hts
      omega
    · have := rank_lt_of_lt (tsOf keys) hlt hts.symm
      omega
  · rw [pivotIbi, List.map_map]
    rw [show (Prod.fst ∘ fun t =>
        (t, (multiIndexed keys vals).filterMap fun p =>
          if p.1.1 = t then some (p.1.2, p.2) else none)) = id by
      funext t; rfl]
    rw [List.map_id]
    congr 1
    rw [multiIndexed, List.map_map]
    exact range_map_getD keys
  · intro t
    rw [uniqueKeys, mem_uniqueKeysAux]
    simp

/-- C5 witness: a key sequence with three beats in the same second. -/
theorem C5_witness :
    dupMark (tsOf [5, 5, 5, 7]) (finalSlots [5, 5, 5, 7]) 1 = false
  ∧ (tsOf [5, 5, 5, 7] 1, finalSlots [5, 5, 5, 7] 1) ≠
      (tsOf [5, 5, 5, 7] 2, finalSlots [5, 5, 5, 7] 2) :=
  ⟨(C5_slot_uniqueness [5, 5, 5, 7] [800, 810, 820, 830]).1 1 (by decide),
   (C5_slot_uniqueness [5, 5, 5, 7] [800, 810, 820, 830]).2.2.1 1 2
     (by decide) (by decide) (by decide)⟩

/-- Payload of a record carrying the nested 'Sample' mapping; each field is
present or absent (pandas fills absent fields of a column with NaN). -/
structure Sample where
  absPressure : Option ℚ
  latitude : Option ℚ
  longitude : Option ℚ
  speed : Option ℚ
  cadence : Option ℚ
deriving DecidableEq

/-- One raw record of the 'Samples' array: its timestamp in milliseconds and
the two possible nested payloads under Attributes and the sml key
(an 'R-R' entry holding the IBI interval list, or a 'Sample' entry). -/
structure Event where
  time : ℚ
  rr : Option (List ℚ)
  sample : Option Sample
deriving DecidableEq

/-- The classification loop of parse_json, lines 96-114, starting at source
index i: an 'R-R' event becomes an IBI burst; otherwise a 'Sample' event with
AbsPressure goes to the barometric collection and, independently, one with
Latitude goes to the GPS collection.  processed_samples is a LIST of
consumed indices: an event that is both barometric and GPS appends its index
twice, exactly as the two append calls of the source do. -/
def classifyFrom : ℕ → List Event →
    List (ℚ × List ℚ) × List (ℚ × Sample) × List (ℚ × Sample) × List ℕ
  | _, [] => ([], [], [], [])
  | i, e :: rest =>
    match classifyFrom (i + 1) rest with
    | (ib, ba, gp, pr) =>
      match e.rr with
      | some v => ((e.time, v) :: ib, ba, gp, i :: pr)
      | none =>
        match e.sample with
        | none => (ib, ba, gp, pr)
        | some s =>
          (ib,
           (if s.absPressure.isSome then (e.time, s) :: ba else ba),
           (if s.latitude.isSome then (e.time, s) :: gp else gp),
           (if s.absPressure.isSome then
              (if s.latitude.isSome then i :: i :: pr else i :: pr)
            else (if s.latitude.isSome then i :: pr else pr)))

/-- Classification of the whole event sequence (enumerate starts at 0). -/
def classify (events : List Event) :
    List (ℚ × List ℚ) × List (ℚ × Sample) × List (ℚ × Sample) × List ℕ :=
  classifyFrom 0 events

/-- The IBI bursts collected by the classifier, with their timestamps. -/
def ibiBursts (events : List Event) : List (ℚ × List ℚ) :=
  (classify events).1

/-- The barometric frame: samples with AbsPressure, indexed by rounded
second (pd.DataFrame(baro_data, index=pd.to_datetime(baro_time).round(freq))
in parse_json).  Duplicate keys are kept at this stage. -/
def baroFrame (events : List Event) : List (ℤ × Sample) :=
  (classify events).2.1.map fun p => (roundSec p.1, p.2)

/-- The GPS frame: samples with Latitude, indexed by rounded second. -/
def gpsFrame (events : List Event) : List (ℤ × Sample) :=
  (classify events).2.2.1.map fun p => (roundSec p.1, p.2)

/-- Rounded-second keys of the reconstructed per-beat series
(ibi_timeindex.round in parse_json). -/
def ibiKeys (events : List Event) : List ℤ :=
  (beatTimes (ibiBursts events)).map roundSec

/-- The raw-IBI matrix frame (ibi.unstack()), keyed by rounded second. -/
def ibiFrame (events : List Event) : List (ℤ × List (ℕ × ℚ)) :=
  pivotIbi (multiIndexed (ibiKeys events) (stackedIbi (ibiBursts events)))

/-- Pandas left join on the row index (the default how of DataFrame.join,
used in parse_json lines 153-156): every left row is kept; when several
right rows share its key the left row is repeated once per match; a left row
without a match gets an empty right part.  Right-only keys are dropped. -/
def joinLeft {α β : Type} : List (ℤ × α) → List (ℤ × β) → List (ℤ × (α × Option β))
  | [], _ => []
  | p :: tl, r =>
    (match r.filter (fun q => q.1 = p.1) with
     | [] => [(p.1, (p.2, none))]
     | ms => ms.map fun q => (p.1, (p.2, some q.2))) ++ joinLeft tl r

/-- Row filter exercise_data[~exercise_data.index.duplicated(keep='first')]
of parse_json lines 158-159: keep the first row of every key. -/
def dropDupKeys {α : Type} (seen : List ℤ) : List (ℤ × α) → List (ℤ × α)
  | [] => []
  | p :: tl => if p.1 ∈ seen then dropDupKeys seen tl else p :: dropDupKeys (p.1 :: seen) tl

/-- One row of the aligned table: the barometric column group (the join
base), and the optionally joined GPS, raw-IBI and processed-IBI groups. -/
structure Row where
  baro : Sample
  gps : Option Sample
  ibiRaw : Option (List (ℕ × ℚ))
  ibiProc : Option (List (ℕ × Option ℚ))
deriving DecidableEq

/-- exercise_data after the first loop iteration of parse_json line 154:
the barometric frame left-joined with the GPS frame when the latter is
nonempty (the pandas skip of an empty frame only omits the empty column
group, which is represented by an all-none column here). -/
def edGps (events : List Event) : List (ℤ × (Sample × Option Sample)) :=
  if (gpsFrame events).length > 0 then joinLeft (baroFrame events) (gpsFrame events)
  else (baroFrame events).map fun p => (p.1, (p.2, none))

/-- exercise_data after the second loop iteration: joined with the raw-IBI
frame when nonempty. -/
def edIbi (events : List Event) :
    List (ℤ × ((Sample × Option Sample) × Option (List (ℕ × ℚ)))) :=
  if (ibiFrame events).length > 0 then joinLeft (edGps events) (ibiFrame events)
  else (edGps events).map fun p => (p.1, (p.2, none))

/-- The aligned table at the end of parse_json: the joined frame with
duplicate keys dropped (keep first), then the Cadence column converted to
steps per minute (line 162). -/
def alignedTable (events : List Event) : List (ℤ × Row) :=
  (dropDupKeys [] (edIbi events)).map fun p =>
    (p.1,
     { baro := { p.2.1.1 with cadence := p.2.1.1.cadence.map fun c => c * 60 }
       gps := p.2.1.2
       ibiRaw := p.2.2
       ibiProc := none })

/-- Errors surfaced by parsing.  Only indexError is ever produced by the
code (the IndexError of ibi.index[0] on an empty burst list, line 119);
emptyInputError names the taxonomy entry of the specification, which the
code never raises and never defines. -/
inductive ParseErr
  | indexError
  | emptyInputError
deriving DecidableEq

/-- The state left on the instance by parse_json: the multi-indexed raw
per-beat series, the aligned table, the unparsed-lines count computed as
len(raw) - len(processed_samples) (a LIST length, duplicates counted), and
the indices selected by the boolean mask (set semantics: an index is
unparsed iff it was never appended). -/
structure ParseResult where
  ibi_1d : List ((ℤ × ℕ) × ℚ)
  exercise_data : List (ℤ × Row)
  unparsed_lines : ℤ
  unparsed_data : List ℕ
deriving DecidableEq

/-- parse_json for mode suunto_json: fails with IndexError when no event
carried an 'R-R' payload (ibi.index[0] on the empty index), otherwise
produces the parsed state. -/
def parse_json (events : List Event) : Except ParseErr ParseResult :=
  if (ibiBursts events).isEmpty then .error .indexError
  else .ok
    { ibi_1d := multiIndexed (ibiKeys events) (stackedIbi (ibiBursts events))
      exercise_data := alignedTable events
      unparsed_lines := (events.length : ℤ) - ((classify events).2.2.2.length : ℤ)
      unparsed_data :=
        (List.range events.length).filter fun i => i ∉ (classify events).2.2.2 }

theorem uniqueKeysAux_append_mem :
    ∀ (bs seen rest : List ℤ), (∀ x ∈ bs, x ∈ seen) →
      uniqueKeysAux seen (bs ++ rest) = uniqueKeysAux seen rest := by
  intro bs
  induction bs with
  | nil => intro seen rest _; rfl
  | cons b bs ih =>
      intro seen rest h
      rw [List.cons_append, uniqueKeysAux, if_pos (h b (List.mem_cons_self b bs))]
      exact ih seen rest fun x hx => h x (List.mem_cons_of_mem b hx)

theorem uniqueKeysAux_const_block (bs : List ℤ) (k : ℤ) (seen rest : List ℤ)
    (h : ∀ x ∈ bs, x = k) :
    uniqueKeysAux seen ((k :: bs) ++ rest) = uniqueKeysAux seen (k :: rest) := by
  rw [List.cons_append, uniqueKeysAux]
  by_cases hk : k ∈ seen
  · rw [if_pos hk, uniqueKeysAux_append_mem bs seen rest
      (fun x hx => by rw [h x hx]; exact hk)]
    rw [uniqueKeysAux, if_pos hk]
  · rw [if_neg hk, uniqueKeysAux_append_mem bs (k :: seen) rest
      (fun x hx => by rw [h x hx]; exact List.mem_cons_self k seen)]
    rw [show uniqueKeysAux seen (k :: rest) = k :: uniqueKeysAux (k :: seen) rest by
      rw [uniqueKeysAux, if_neg hk]]

theorem uniqueKeysAux_joinLeft {α β : Type} :
    ∀ (l : List (ℤ × α)) (r : List (ℤ × β)) (seen : List ℤ),
      uniqueKeysAux seen ((joinLeft l r).map Prod.fst) =
        uniqueKeysAux seen (l.map Prod.fst) := by
  intro l
  induction l with
  | nil => intro r seen; rfl
  | cons p tl ih =>
      intro r seen
      rcases hf : r.filter (fun q => q.1 = p.1) with _ | ⟨q, qs⟩
      · have hj : joinLeft (p :: tl) r = (p.1, (p.2, none)) :: joinLeft tl r := by
          rw [joinLeft, hf]
          rfl
        rw [hj, List.map_cons, List.map_cons]
        rw [uniqueKeysAux, uniqueKeysAux]
        split_ifs
        · exact ih r seen
        · rw [ih r (p.1 :: seen)]
      · have hj : joinLeft (p :: tl) r =
            ((q :: qs).map fun s => (p.1, (p.2, some s.2))) ++ joinLeft tl r := by
          rw [joinLeft, hf]
        rw [hj, List.map_append, List.map_map,
          show (Prod.fst ∘ fun s : ℤ × β => (p.1, (p.2, some s.2))) = fun _ => p.1 from
            funext fun s => rfl]
        rw [show ((q :: qs).map fun _ => p.1) = p.1 :: (qs.map fun _ => p.1) from rfl]
        rw [uniqueKeysAux_const_block (qs.map fun _ => p.1) p.1 seen _
          (by
            intro x hx
            rcases List.mem_map.1 hx with ⟨s, _, hs⟩
            exact hs.symm)]
        rw [List.map_cons, uniqueKeysAux, uniqueKeysAux]
        split_ifs
        · exact ih r seen
        · rw [ih r (p.1 :: seen)]

theorem map_fst_dropDupKeys {α : Type} :
    ∀ (l : List (ℤ × α)) (seen : List ℤ),
      (dropDupKeys seen l).map Prod.fst = uniqueKeysAux seen (l.map Prod.fst) := by
  intro l
  induction l with
  | nil => intro seen; rfl
  | cons p tl ih =>
      intro seen
      rw [List.map_cons, dropDupKeys, uniqueKeysAux]
      split_ifs
      · exact ih seen
      · rw [List.map_cons, ih (p.1 :: seen)]

theorem map_fst_map_pair {α β : Type} (l : List (ℤ × α)) (f : ℤ × α → β) :
    (l.map fun p => (p.1, f p)).map Prod.fst = l.map Prod.fst := by
  rw [List.map_map]
  rfl

/-- C1 amended: the join of parse_json is a pandas LEFT join anchored on the
barometric frame, so the aligned table's key list equals the distinct
rounded-second keys of the BAROMETRIC stream alone, in first-occurrence
order (GPS-only or IBI-only keys are dropped, contrary to the claimed union
of all streams); no key appears twice. -/
theorem C1_left_join_row_keys (events : List Event) :
    (alignedTable events).map Prod.fst = uniqueKeys ((baroFrame events).map Prod.fst)
  ∧ ((alignedTable events).map Prod.fst).Nodup := by
  have h2 : uniqueKeysAux [] ((edIbi events).map Prod.fst) =
      uniqueKeysAux [] ((edGps events).map Prod.fst) := by
    rw [edIbi]
    split_ifs
    · exact uniqueKeysAux_joinLeft (edGps events) (ibiFrame events) []
    · rw [map_fst_map_pair]
  have h1 : uniqueKeysAux [] ((edGps events).map Prod.fst) =
      uniqueKeysAux [] ((baroFrame events).map Prod.fst) := by
    rw [edGps]
    split_ifs
    · exact uniqueKeysAux_joinLeft (baroFrame events) (gpsFrame events) []
    · rw [map_fst_map_pair]
  have hkeys : (alignedTable events).map Prod.fst =
      uniqueKeys ((baroFrame events).map Prod.fst) := by
    rw [alignedTable, map_fst_map_pair, map_fst_dropDupKeys, uniqueKeys, h2, h1]
  refine ⟨hkeys, ?_⟩
  rw [hkeys, uniqueKeys]
  exact nodup_uniqueKeysAux _ []

/-- Barometric sample payload used in the C1 counterexample recording. -/
def sampleC1 : Sample :=
  { absPressure := some 974, latitude := none, longitude := none,
    speed := none, cadence := none }

/-- Concrete recording for the C1 counterexample: one IBI burst whose beat
rounds to second 11, and one barometric sample rounding to second 25. -/
def evC1 : List Event :=
  [ { time := 11000, rr := some [1000], sample := none },
    { time := 25300, rr := none, sample := some sampleC1 } ]

/-- C1 counterexample: the union of rounded-second keys over the three
streams has two distinct elements, but the aligned table has one row: the
left join on the barometric frame dropped the IBI-only key. -/
theorem C1_counterexample :
    (alignedTable evC1).length = 1
  ∧ (uniqueKeys ((baroFrame evC1).map Prod.fst ++ (gpsFrame evC1).map Prod.fst ++
      (ibiFrame evC1).map Prod.fst)).length = 2 := by
  have h11 : roundSec 11000 = 11 := by norm_num [roundSec]
  have h25 : roundSec 25300 = 25 := by norm_num [roundSec]
  have hb : baroFrame evC1 = [(25, sampleC1)] := by
    simp [baroFrame, classify, classifyFrom, evC1, sampleC1, h25]
  have hg : gpsFrame evC1 = [] := by
    simp [gpsFrame, classify, classifyFrom, evC1, sampleC1]
  have hbursts : ibiBursts evC1 = [(11000, [1000])] := by
    simp [ibiBursts, classify, classifyFrom, evC1]
  have hkeys : ibiKeys evC1 = [11] := by
    rw [ibiKeys, hbursts]
    norm_num [beatTimes, stackedIbi, cumsumFrom, h11]
  have hstack : stackedIbi (ibiBursts evC1) = [1000] := by
    rw [hbursts]
    simp [stackedIbi]
  have hmulti : multiIndexed (ibiKeys evC1) (stackedIbi (ibiBursts evC1)) =
      [((11, 1), 1000)] := by
    rw [hkeys, hstack]
    simp [multiIndexed, tsOf, finalSlots, slotIter, slotStep, dupMark,
      show List.range 1 = [0] from rfl]
  have hibi : ibiFrame evC1 = [(11, [(1, 1000)])] := by
    rw [ibiFrame, hmulti]
    simp [pivotIbi, uniqueKeys, uniqueKeysAux]
  constructor
  · rw [alignedTable, edIbi, hibi, edGps, hg, hb]
    simp [joinLeft, dropDupKeys]
  · rw [hb, hg, hibi]
    simp [uniqueKeys, uniqueKeysAux]

/-- Concrete recording for C4: an IBI burst, an event that is BOTH
barometric and GPS (AbsPressure and Latitude present), and one unrecognized
event. -/
def evC4 : List Event :=
  [ { time := 1000, rr := some [1000], sample := none },
    { time := 2000, rr := none,
      sample := some { absPressure := some 1013, latitude := some 51,
                       longitude := some 7, speed := none, cadence := none } },
    { time := 3000, rr := none, sample := none } ]

/-- C4 (code bug): the double-classified event appends its index twice to
the processed_samples list, so unparsed_lines = 3 - 3 = 0, while the number
of events minus the number of DISTINCT consumed indices is 3 - 2 = 1 — which
is also the length of the code's own mask-selected unparsed_data.  The two
bookkeeping outputs of the same function disagree. -/
theorem C4_code_divergence :
    Except.map (fun r => (r.unparsed_lines, r.unparsed_data.length)) (parse_json evC4)
      = Except.ok ((0 : ℤ), 1)
  ∧ (evC4.length : ℤ) - (((classify evC4).2.2.2).toFinset.card : ℤ) = 1 := by
  constructor
  · rfl
  · rfl

/-- C6 amended: a recording with zero IBI bursts makes parse_json fail with
the IndexError of ibi.index[0] on an empty index — there is no dedicated
EmptyInputError anywhere in the code. -/
theorem C6_empty_ibi_fails_with_index_error (events : List Event)
    (h : ibiBursts events = []) :
    parse_json events = .error .indexError := by
  simp [parse_json, h]

/-- C6 witness: the empty recording. -/
theorem C6_witness : parse_json [] = .error .indexError :=
  C6_empty_ibi_fails_with_index_error [] rfl

/-- C6 counterexample: on a burst-free recording the parser's error is
indexError, which is not the claimed emptyInputError. -/
theorem C6_counterexample :
    parse_json [{ time := 5000, rr := none, sample := none }] = .error .indexError
  ∧ (Except.error ParseErr.indexError : Except ParseErr ParseResult) ≠
      .error .emptyInputError := by
  refine ⟨rfl, ?_⟩
  simp

/-- Maximum-threshold filter of filter_ibi, line 245:
processed[processed > max_thresh] = nan.  Only values strictly above the
threshold are replaced; a NaN entry compares false and stays in place. -/
def maxFilter (thresh : ℚ) (xs : List (Option ℚ)) : List (Option ℚ) :=
  xs.map fun x =>
    match x with
    | none => none
    | some v => if thresh < v then none else some v

/-- Minimum-threshold filter of filter_ibi, line 248:
processed[processed < min_thresh] = nan. -/
def minFilter (thresh : ℚ) (xs : List (Option ℚ)) : List (Option ℚ) :=
  xs.map fun x =>
    match x with
    | none => none
    | some v => if v < thresh then none else some v

/-- Modelled from the spec: the spike_filter of the external pyPreprocessing
library called by filter_ibi is not part of this repository.  Following the
specification, the default weights [True, True, False, True, True] select
the neighbors at offsets -2, -1, +1, +2 around the excluded center; this
returns the values of those neighbors that exist and are present. -/
def windowVals (xs : List (Option ℚ)) (i : ℕ) : List ℚ :=
  ([-2, -1, 1, 2] : List ℤ).filterMap fun o =>
    if 0 ≤ (i : ℤ) + o ∧ (i : ℤ) + o < (xs.length : ℤ) then
      xs.getD ((i : ℤ) + o).toNat none
    else none

/-- Modelled from the spec: the weighted local average of the selected
neighbors (the center point is never part of its own baseline). -/
def localMean (xs : List (Option ℚ)) (i : ℕ) : ℚ :=
  (windowVals xs i).sum / (windowVals xs i).length

/-- Modelled from the spec: the local variance (squared local standard
deviation) across the selected neighbor window. -/
def localVar (xs : List (Option ℚ)) (i : ℕ) : ℚ :=
  (((windowVals xs i).map fun v => (v - localMean xs i) ^ 2).sum) /
    (windowVals xs i).length

/-- Modelled from the spec: the spike filter replaces a value with missing
when it deviates from the local average by more than std_factor local
standard deviations; on squares, when its squared deviation exceeds
std_factor squared times the local variance. -/
def spikeFilter (stdFactor : ℚ) (xs : List (Option ℚ)) : List (Option ℚ) :=
  (List.range xs.length).map fun i =>
    match xs.getD i none with
    | none => none
    | some x =>
        if (x - localMean xs i) ^ 2 > stdFactor ^ 2 * localVar xs i then none
        else some x

/-- filter_ibi with the defaults used by __init__ (lowpass, then maximum,
then minimum; weights [True, True, False, True, True], std_factor 2,
max_thresh 60000/25, min_thresh 60000/220). -/
def filterIbiDefaults (xs : List (Option ℚ)) : List (Option ℚ) :=
  minFilter (60000/220) (maxFilter (60000/25) (spikeFilter 2 xs))

/-- C7: under the default thresholds the maximum filter keeps a value equal
to 60000/25 ms and turns every strictly greater value into missing; the
minimum filter keeps a value equal to 60000/220 ms and turns every strictly
smaller value into missing. -/
theorem C7_threshold_boundary (xs : List (Option ℚ)) (i : ℕ) (v : ℚ)
    (h : xs.get? i = some (some v)) :
    (v ≤ 60000/25 → (maxFilter (60000/25) xs).get? i = some (some v))
  ∧ (60000/25 < v → (maxFilter (60000/25) xs).get? i = some none)
  ∧ (60000/220 ≤ v → (minFilter (60000/220) xs).get? i = some (some v))
  ∧ (v < 60000/220 → (minFilter (60000/220) xs).get? i = some none) := by
  refine ⟨fun hv => ?_, fun hv => ?_, fun hv => ?_, fun hv => ?_⟩
  · rw [maxFilter, List.get?_map, h, Option.map_some']
    show some (if (60000 : ℚ)/25 < v then none else some v) = some (some v)
    rw [if_neg (not_lt.2 hv)]
  · rw [maxFilter, List.get?_map, h, Option.map_some']
    show some (if (60000 : ℚ)/25 < v then none else some v) = some none
    rw [if_pos hv]
  · rw [minFilter, List.get?_map, h, Option.map_some']
    show some (if v < (60000 : ℚ)/220 then none else some v) = some (some v)
    rw [if_neg (not_lt.2 hv)]
  · rw [minFilter, List.get?_map, h, Option.map_some']
    show some (if v < (60000 : ℚ)/220 then none else some v) = some none
    rw [if_pos hv]

/-- C7 witness: the exact boundary values are kept; values one millisecond
beyond them are removed. -/
theorem C7_witness :
    (maxFilter (60000/25) [some (2400 : ℚ), some 2401]).get? 0 = some (some 2400)
  ∧ (maxFilter (60000/25) [some (2400 : ℚ), some 2401]).get? 1 = some none
  ∧ (minFilter (60000/220) [some ((60000 : ℚ)/220), some 270]).get? 0 =
      some (some (60000/220))
  ∧ (minFilter (60000/220) [some ((60000 : ℚ)/220), some 270]).get? 1 = some none :=
  ⟨(C7_threshold_boundary [some 2400, some 2401] 0 2400 rfl).1 (by norm_num),
   (C7_threshold_boundary [some 2400, some 2401] 1 2401 rfl).2.1 (by norm_num),
   (C7_threshold_boundary [some (60000/220), some 270] 0 (60000/220) rfl).2.2.1
     (by norm_num),
   (C7_threshold_boundary [some (60000/220), some 270] 1 270 rfl).2.2.2
     (by norm_num)⟩

/-- A series with no outliers in the sense of the claim: every present value
deviates from its weighted neighbor-only local average by at most 2 local
standard deviations (equivalently on squares: squared deviation at most
2 squared times the local variance) and lies within the default
plausibility thresholds. -/
def cleanSeries (xs : List (Option ℚ)) : Prop :=
  ∀ i x, xs.get? i = some (some x) →
    (x - localMean xs i) ^ 2 ≤ 2 ^ 2 * localVar xs i ∧
    60000/220 ≤ x ∧ x ≤ 60000/25

/-- C8: on a series with no outliers, the artifact filter (spike, maximum
and minimum passes; the median smoothing is not part of filter_ibi) returns
the series unchanged. -/
theorem C8_filter_identity_on_clean (xs : List (Option ℚ)) (h : cleanSeries xs) :
    filterIbiDefaults xs = xs := by
  have hspike : spikeFilter 2 xs = xs := by
    apply List.ext_get?
    intro i
    by_cases hi : i < xs.length
    · rw [spikeFilter, List.get?_map, List.get?_range hi, Option.map_some']
      rcases hx : xs.get? i with _ | o
      · exact absurd (List.get?_eq_none.1 hx) (by omega)
      · have hgd : xs.getD i none = o := by
          rw [List.getD_eq_getD_get?, hx]
          rfl
        cases o with
        | none =>
            rw [hgd]
        | some x =>
            rw [hgd]
            have hb := (h i x hx).1
            show some (if (x - localMean xs i) ^ 2 > 2 ^ 2 * localVar xs i
              then none else some x) = some (some x)
            rw [if_neg (not_lt.2 hb)]
    · rw [spikeFilter, List.get?_map,
        List.get?_eq_none.2 (by rw [List.length_range]; omega),
        List.get?_eq_none.2 (by omega)]
      rfl
  have hmax : maxFilter (60000/25) xs = xs := by
    apply List.ext_get?
    intro i
    rw [maxFilter, List.get?_map]
    rcases hx : xs.get? i with _ | o
    · rfl
    · cases o with
      | none => rfl
      | some x =>
          have hb := (h i x hx).2.2
          rw [Option.map_some']
          show some (if (60000 : ℚ)/25 < x then none else some x) = some (some x)
          rw [if_neg (not_lt.2 hb)]
  have hmin : minFilter (60000/220) xs = xs := by
    apply List.ext_get?
    intro i
    rw [minFilter, List.get?_map]
    rcases hx : xs.get? i with _ | o
    · rfl
    · cases o with
      | none => rfl
      | some x =>
          have hb := (h i x hx).2.1
          rw [Option.map_some']
          show some (if x < (60000 : ℚ)/220 then none else some x) = some (some x)
          rw [if_neg (not_lt.2 hb)]
  rw [filterIbiDefaults, hspike, hmax, hmin]

/-- C8 witness: a short all-equal series is clean and passes the filter
unchanged. -/
theorem C8_witness :
    cleanSeries [some (1000 : ℚ), some 1000]
  ∧ filterIbiDefaults [some (1000 : ℚ), some 1000] = [some (1000 : ℚ), some 1000] := by
  have w0 : windowVals [some (1000 : ℚ), some 1000] 0 = [1000] := by
    norm_num [windowVals, List.filterMap_cons]
  have w1 : windowVals [some (1000 : ℚ), some 1000] 1 = [1000] := by
    norm_num [windowVals, List.filterMap_cons]
  have hc : cleanSeries [some (1000 : ℚ), some 1000] := by
    intro i x hx
    have hi : i < 2 := by
      by_contra hge
      rw [List.get?_eq_none.2 (by simpa using Nat.le_of_not_lt hge)] at hx
      exact Option.noConfusion hx
    interval_cases i
    · simp only [List.get?_cons_zero, Option.some.injEq] at hx
      subst hx
      refine ⟨?_, by norm_num, by norm_num⟩
      norm_num [localMean, localVar, w0]
    · simp only [List.get?_cons_succ, List.get?_cons_zero, Option.some.injEq] at hx
      subst hx
      refine ⟨?_, by norm_num, by norm_num⟩
      norm_num [localMean, localVar, w1]
  exact ⟨hc, C8_filter_identity_on_clean _ hc⟩

/-- Median of a window, modelled from the spec: scipy's median_filter called
by smooth_ibi is external to this repository; following the specification,
each entry becomes the median of the present values available in its
window (an implementation choice for the missing-value handling). -/
def medianOfWindow (w : List ℚ) : Option ℚ :=
  (w.insertionSort (· ≤ ·)).get? ((w.insertionSort (· ≤ ·)).length / 2)

/-- Modelled from the spec: sliding median of odd window length over the
processed series; missing entries contribute nothing to their windows. -/
def medianSmooth (window : ℕ) (xs : List (Option ℚ)) : List (Option ℚ) :=
  (List.range xs.length).map fun i =>
    medianOfWindow ((List.range window).filterMap fun k =>
      if 0 ≤ (i : ℤ) + k - (window / 2 : ℕ) ∧
          (i : ℤ) + k - (window / 2 : ℕ) < (xs.length : ℤ) then
        xs.getD ((i : ℤ) + k - (window / 2 : ℕ)).toNat none
      else none)

/-- The per-instance state touched by the processing stages launched from
__init__ after parse_json: the raw multi-indexed series ibi_1d, the parallel
processed series (self.ibi_1d_processed = self.ibi_1d.copy()), and the
aligned table. -/
structure ExState where
  ibi_1d : List ((ℤ × ℕ) × ℚ)
  ibi_1d_processed : List (Option ℚ)
  exercise_data : List (ℤ × Row)
deriving DecidableEq

/-- filter_ibi with the default arguments of the __init__ call: assigns only
self.ibi_1d_processed (lines 237-251). -/
def filter_ibi (s : ExState) : ExState :=
  { s with ibi_1d_processed := filterIbiDefaults s.ibi_1d_processed }

/-- smooth_ibi with the default arguments (median window 5): assigns only
self.ibi_1d_processed (lines 196-201). -/
def smooth_ibi (s : ExState) : ExState :=
  { s with ibi_1d_processed := medianSmooth 5 s.ibi_1d_processed }

/-- Lookup of a key in a uniquely keyed frame; the left join of
exercise_data with the unstacked processed frame (unique keys on both
sides) fills each existing row from the matching right row. -/
def lookupKey {α : Type} (l : List (ℤ × α)) (k : ℤ) : Option α :=
  (l.find? fun p => p.1 == k).map Prod.snd

/-- The processed frame built inside replace_processed_ibi (line 267-269):
the processed series, indexed like ibi_1d by (second, slot), unstacked to
one row per second carrying the per-slot processed values, with the columns
relabeled IBI_processed. -/
def pivotProc (idx : List (ℤ × ℕ)) (vals : List (Option ℚ)) :
    List (ℤ × List (ℕ × Option ℚ)) :=
  (uniqueKeys (idx.map Prod.fst)).map fun t =>
    (t, (idx.zip vals).filterMap fun p =>
      if p.1.1 = t then some (p.1.2, p.2) else none)

/-- replace_processed_ibi, lines 253-270.  NOTE: the filtered_data parameter
is immediately shadowed on the first line of the body by a frame recomputed
from self.ibi_1d_processed; the recomputed frame is then left-joined onto
exercise_data, filling the IBI_processed column group of every existing
row.  Rows and all other columns are untouched. -/
def replace_processed_ibi (s : ExState) (filtered_data : List (Option ℚ)) :
    ExState :=
  { s with exercise_data := s.exercise_data.map fun p =>
      (p.1, { p.2 with ibiProc := lookupKey (pivotProc (s.ibi_1d.map Prod.fst) s.ibi_1d_processed) p.1 }) }

/-- C9: running filter_ibi, smooth_ibi and replace_processed_ibi (the latter
receiving the processed series, as __init__ passes it) leaves the raw
per-beat series and the keys and IBI_raw columns of the aligned table
element-wise unchanged; only the processed series and the added
IBI_processed columns differ. -/
theorem C9_raw_data_never_mutated (s : ExState) :
    ((replace_processed_ibi (smooth_ibi (filter_ibi s))
        (smooth_ibi (filter_ibi s)).ibi_1d_processed).ibi_1d = s.ibi_1d)
  ∧ ((replace_processed_ibi (smooth_ibi (filter_ibi s))
        (smooth_ibi (filter_ibi s)).ibi_1d_processed).exercise_data.map
          (fun p => (p.1, p.2.ibiRaw)) =
      s.exercise_data.map fun p => (p.1, p.2.ibiRaw)) := by
  constructor
  · rfl
  · rw [replace_processed_ibi]
    rw [List.map_map]
    rfl

/-- C10: replace_processed_ibi ignores its filtered_data argument — the
parameter is overwritten before first use — so for any two argument values
and the same state the results coincide. -/
theorem C10_argument_ignored (s : ExState) (a b : List (Option ℚ)) :
    replace_processed_ibi s a = replace_processed_ibi s b := rfl

end Suunto
